import Mathlib

/-!
Verification of the assertion-evaluation pipeline in `src/home.py`
(class `AssertionEvaluator`).  The spreadsheet cells are modelled as an
inductive `Cell` (text, number, or empty/NaN), a worksheet as a list of
rows of cells, and a workbook as an association list from sheet names to
grids.  External collaborators (the JSON codec, the grid serializer and
the remote model call) are passed in as explicit function parameters,
mirroring the spec treatment of them as opaque input/output contracts.
-/

/-- Models one spreadsheet cell as read by `pd.read_excel`: a text value, a
numeric value, or an empty cell (pandas `NaN`). -/
inductive Cell where
  | empty : Cell
  | str (s : String) : Cell
  | num (n : Int) : Cell
deriving DecidableEq, Repr

/-- Models `pd.notna` on a cell value. -/
def Cell.notna : Cell → Bool
  | .empty => false
  | _ => true

/-- Models Python truthiness of a cell value (`if current:`): `None`/empty is
falsy, the empty string is falsy, the number 0 is falsy. -/
def Cell.truthy : Cell → Bool
  | .empty => false
  | .str s => !s.isEmpty
  | .num n => decide (n ≠ 0)

/-- Models Python `str(...)` applied to a cell value, as used in f-strings. -/
def Cell.pyStr : Cell → String
  | .empty => "nan"
  | .str s => s
  | .num n => toString n

/-- Models a worksheet grid: the row-major cell matrix of
`pd.read_excel(..., header=None)`. -/
abbrev Grid := List (List Cell)

/-- Models a workbook file: the map from sheet names to their grids that
`pd.read_excel(excel_path, sheet_name=...)` reads from. -/
abbrev Workbook := List (String × Grid)

/-- Models the sheet lookup performed by `pd.read_excel(path, sheet_name)`:
first entry with the requested name, `none` when the sheet is absent. -/
def lookupSheet : Workbook → String → Option Grid
  | [], _ => none
  | (n, g) :: wb, name => if n = name then some g else lookupSheet wb name

/-- Models the first-index search of the Python row scans: index of the first
element satisfying the predicate. -/
def pyFindIdx (p : α → Bool) : List α → Option Nat
  | [] => none
  | a :: l => if p a then some 0 else (pyFindIdx p l).map (· + 1)

/-- Models `"Assertion" in row.values` for the label scan of
`read_assertions`. -/
def rowHasLabel (label : Cell) (row : List Cell) : Bool :=
  row.any (fun c => decide (c = label))

/-- Models the re-sliced table built by `read_assertions`: the label row
promoted to column names, and the data rows below it. -/
structure LocatedTable where
  header : List Cell
  rows : List (List Cell)
deriving Repr

/-- Models `AssertionEvaluator.read_assertions` (src/home.py lines 22-32):
reads the named sheet, scans the rows for the first one containing the cell
`"Assertion"`, takes the first matching column in that row, and re-slices the
grid from that row and column; the label row becomes the header and the rows
below it become the data rows.  When no cell matches, the Python code leaves
`col_idx` unbound and raises `NameError`; this is the `.error` result.  A
missing sheet makes `pd.read_excel` raise, also an `.error` result. -/
def read_assertions (wb : Workbook) (sheet_name : String := "Main") :
    Except String LocatedTable :=
  match lookupSheet wb sheet_name with
  | none => .error ("ValueError: worksheet " ++ sheet_name ++ " not found")
  | some g =>
    match pyFindIdx (rowHasLabel (Cell.str "Assertion")) g with
    | none => .error "NameError: name col_idx is not defined"
    | some row_idx =>
      let row := g.getD row_idx []
      match pyFindIdx (fun c => decide (c = Cell.str "Assertion")) row with
      | none => .error "unreachable: the located row contains the label"
      | some col_idx =>
        .ok ⟨row.drop col_idx, (g.drop (row_idx + 1)).map (·.drop col_idx)⟩

/-- Models `row.get(name)` on a data row of the located table: value of the
first column whose header cell is the text `name`; `pandas` returns `None`
(here `Cell.empty`) when the column is absent. -/
def colGet (header row : List Cell) (name : String) : Cell :=
  match pyFindIdx (fun c => decide (c = Cell.str name)) header with
  | some i => row.getD i Cell.empty
  | none => Cell.empty

/-- Models one procedure entry of a block:
`{'procedure': ..., 'link': ...}`. -/
structure Entry where
  procedure : Cell
  link : Cell
deriving DecidableEq, Repr

/-- Models one assertion block:
`{'assertion': ..., 'procedures': ...}`. -/
structure Block where
  assertion : Cell
  procedures : List Entry
deriving DecidableEq, Repr

/-- Models the row entry built from the `Testing procedures performed` and
`Link` columns of one table row. -/
def rowEntry (header row : List Cell) : Entry :=
  ⟨colGet header row "Testing procedures performed", colGet header row "Link"⟩

/-- Models the row loop of `extract_assertions` (src/home.py lines 37-52),
with the pending state (`current`, `details`) passed explicitly.  Note that
the close conditions are `if current:` / `elif current:`, which test Python
truthiness of the pending assertion value, while the open condition is
`pd.notna(value)`. -/
def extractLoop (header : List Cell) (current : Option Cell)
    (details : List Entry) : List (List Cell) → List Block
  | [] =>
    match current with
    | some c => if c.truthy then [⟨c, details⟩] else []
    | none => []
  | row :: rest =>
    let value := colGet header row "Assertion"
    if value.notna then
      (match current with
       | some c => if c.truthy then [⟨c, details⟩] else []
       | none => []) ++
      extractLoop header (some value) [rowEntry header row] rest
    else
      match current with
      | some c =>
        if c.truthy then
          extractLoop header (some c) (details ++ [rowEntry header row]) rest
        else
          extractLoop header (some c) details rest
      | none => extractLoop header none details rest

/-- Models `AssertionEvaluator.extract_assertions` (src/home.py lines
35-54): locates the table and folds its data rows into assertion blocks. -/
def extract_assertions (wb : Workbook) (sheet_name : String := "Main") :
    Except String (List Block) :=
  (read_assertions wb sheet_name).map
    (fun t => extractLoop t.header none [] t.rows)

/-- Models Python `str.strip()`: removes leading and trailing whitespace. -/
def pyStrip (l : List Char) : List Char :=
  ((l.dropWhile Char.isWhitespace).reverse.dropWhile Char.isWhitespace).reverse

/-- Models Python `str.replace(pat, "")` with explicit fuel: removes the
occurrences of `pat` left to right, without overlap.  The fuel argument only
makes the recursion structural; `removeOcc` supplies enough fuel. -/
def removeOccF (pat : List Char) : Nat → List Char → List Char
  | _, [] => []
  | 0, l => l
  | fuel + 1, c :: cs =>
    if pat.isPrefixOf (c :: cs) && !pat.isEmpty then
      removeOccF pat fuel ((c :: cs).drop pat.length)
    else
      c :: removeOccF pat fuel cs

/-- Models Python `str.replace(pat, "")` on character lists. -/
def removeOcc (pat l : List Char) : List Char :=
  removeOccF pat l.length l

/-- Models the link normalization of `read_linked_sheet` (src/home.py line
62): `str(link).strip().replace("\x27!A1", "").replace("!A1", "")`. -/
def normalizeLink (s : String) : String :=
  String.mk (removeOcc "!A1".data (removeOcc "\x27!A1".data (pyStrip s.data)))

/-- Models the result dictionary of `read_linked_sheet`: either the linked
sheet payload or an `{'error': ...}` record. -/
inductive SheetResult where
  | ok (sheet_name : String) (raw_data : Grid) (shape : String) : SheetResult
  | err (msg : String) : SheetResult
deriving Repr

/-- Decides whether a `read_linked_sheet` result is an error record. -/
def SheetResult.isErr : SheetResult → Bool
  | .err _ => true
  | _ => false

/-- Models `df.shape` of a loaded sheet: pandas pads the rows to a rectangle,
so the column count is the width of the widest row. -/
def gridShape (g : Grid) : String :=
  toString g.length ++ " rows x " ++
    toString (g.foldl (fun m row => max m row.length) 0) ++ " columns"

/-- Models `AssertionEvaluator.read_linked_sheet` (src/home.py lines 57-70):
a `NaN` link returns the `No link provided` error record; otherwise the link
text is normalized to a sheet name and the sheet is loaded, any exception
becoming an `Error reading sheet: ...` record.  The exception text raised by
pandas for a missing sheet is abstracted as the sheet name. -/
def read_linked_sheet (wb : Workbook) (link : Cell) : SheetResult :=
  if link.notna = false then .err "No link provided"
  else
    let sheet_name := normalizeLink link.pyStr
    match lookupSheet wb sheet_name with
    | some g => .ok sheet_name g (gridShape g)
    | none => .err ("Error reading sheet: " ++ sheet_name)

/-- Models a parsed JSON value as produced by `json.loads`. -/
inductive Json where
  | null : Json
  | bool (b : Bool) : Json
  | num (n : Int) : Json
  | str (s : String) : Json
  | arr (xs : List Json) : Json
  | obj (fields : List (String × Json)) : Json

/-- Models the field lookup of a parsed JSON dictionary: first field with
the requested key. -/
def jgetFields : List (String × Json) → String → Option Json
  | [], _ => none
  | (k, v) :: fs, key => if k = key then some v else jgetFields fs key

/-- Models `d[k]` presence on a parsed JSON dictionary.  The pipeline only
ever calls this on dictionary results; a non-dictionary value would make
the Python attribute access raise. -/
def jget : Json → String → Option Json
  | .obj fs, key => jgetFields fs key
  | _, _ => none

/-- Models `d.get(k, default)` on a parsed JSON dictionary. -/
def jgetD (j : Json) (key : String) (d : Json) : Json :=
  (jget j key).getD d

/-- Models `d.get(k, [])` for the list-valued report sections; a key that is
absent, or whose value is the empty array, yields no items.  Non-array
values are not exercised by the pipeline. -/
def jItems (j : Json) (key : String) : List Json :=
  match jget j key with
  | some (.arr xs) => xs
  | _ => []

/-- Models Python `str(...)` of a parsed JSON value inside an f-string.  The
container cases are abbreviated; no claim exercises them. -/
def Json.pyStr : Json → String
  | .str s => s
  | .num n => toString n
  | .bool true => "True"
  | .bool false => "False"
  | .null => "None"
  | .arr _ => "[...]"
  | .obj _ => "\x7b...\x7d"

/-- Models the opening fence marker searched by `parse_json_result`. -/
def fence : List Char := "```".data

/-- Models the json-tagged fence marker searched by `parse_json_result`. -/
def fenceJson : List Char := "```json".data

/-- Models the combination of `pat in s`, `s.find(pat)` and slicing used by
`parse_json_result`: `none` when `pat` does not occur, otherwise the text
before the first occurrence together with the text after it. -/
def splitFirst (pat : List Char) : List Char → Option (List Char × List Char)
  | [] => none
  | c :: cs =>
    if pat.isPrefixOf (c :: cs) then some ([], (c :: cs).drop pat.length)
    else (splitFirst pat cs).map (fun x => (c :: x.1, x.2))

/-- Models `AssertionEvaluator.parse_json_result` (src/home.py lines
131-143), parameterized by the external `json.loads` (`none` models a
`JSONDecodeError`).  A direct parse is attempted first; on failure the text
between a `json`-tagged fence marker and the next fence marker is parsed,
else the text between the first two generic fence markers; Python slices
with end index `-1` when no closing marker exists, dropping the last
character.  When everything fails the original decode error is re-raised. -/
def parse_json_result (loads : String → Option Json) (result_text : String) :
    Except String Json :=
  match loads result_text with
  | some v => .ok v
  | none =>
    match splitFirst fenceJson result_text.data with
    | some x =>
      let mid := match splitFirst fence x.2 with
        | some y => y.1
        | none => x.2.dropLast
      match loads (String.mk (pyStrip mid)) with
      | some v => .ok v
      | none => .error "json.decoder.JSONDecodeError"
    | none =>
      match splitFirst fence result_text.data with
      | some x =>
        let mid := match splitFirst fence x.2 with
          | some y => y.1
          | none => x.2.dropLast
        match loads (String.mk (pyStrip mid)) with
        | some v => .ok v
        | none => .error "json.decoder.JSONDecodeError"
      | none => .error "json.decoder.JSONDecodeError"

/-- Models the external collaborators of the pipeline: the JSON decoder
(`json.loads`), the serializer `json.dumps` applied to the one error
dictionary shape built by `evaluate_assertion` (as a function of its
`reasoning` message), the grid serializer `json.dumps(raw_data, indent=2,
default=str)`, and the remote model call (`.error` models a raised
exception, carrying its text). -/
structure Extern where
  loads : String → Option Json
  dumpsErr : String → String
  dumpGrid : Grid → String
  model : String → Except String String

/-- Models the parsed form of the error dictionary serialized by
`evaluate_assertion` on a model-call failure:
`{'verdict': 'ERROR', 'confidence': 0, 'reasoning': msg}`. -/
def errObj (msg : String) : Json :=
  .obj [("verdict", .str "ERROR"), ("confidence", .num 0),
        ("reasoning", .str msg)]

/-- Models the fallback dictionary built by `evaluate_all` when
`parse_json_result` raises (src/home.py lines 201-208). -/
def parseErrObj (msg : String) : Json :=
  .obj [("verdict", .str "ERROR"), ("confidence", .num 0),
        ("reasoning", .str ("Parse error: " ++ msg)),
        ("key_findings", .arr []), ("discrepancies", .arr []),
        ("recommendations", .arr [])]

/-- Models the per-procedure part of `prepare_context` (src/home.py lines
76-87): a numbered sub-header and description for each entry, the linked
sheet name, dimensions and serialized grid when a link is present and
resolves, the resolver error message when it does not, and a fixed
separator after each entry. -/
def contextProcs (ext : Extern) (wb : Workbook) : Nat → List Entry → String
  | _, [] => ""
  | i, e :: es =>
    "Procedure " ++ toString i ++ "\nDescription: " ++ e.procedure.pyStr ++
      "\n\n" ++
    (if e.link.notna then
       match read_linked_sheet wb e.link with
       | .ok name g shape =>
         "Linked Sheet: " ++ name ++ "\n" ++ "Dimensions: " ++ shape ++
           "\n" ++ "Data:\n" ++ ext.dumpGrid g ++ "\n\n"
       | .err m => "Error: " ++ m ++ "\n\n"
     else "") ++
    "---\n\n" ++ contextProcs ext wb (i + 1) es

/-- Models `AssertionEvaluator.prepare_context` (src/home.py lines 73-89). -/
def prepare_context (ext : Extern) (wb : Workbook) (assertion : Cell)
    (procedures : List Entry) : String :=
  "Evaluate: " ++ assertion.pyStr ++
    "\n\nTesting Procedures and Related Data:\n\n" ++
    contextProcs ext wb 1 procedures

/-- Models the fixed prompt template of `evaluate_assertion` (src/home.py
lines 95-115) wrapped around the assembled context. -/
def promptTemplate (context : String) : String :=
  context ++
  "\n\nYou are performing a first-level technical review of an audit workpaper. Your task is to critically evaluate the workpaper for technical accuracy, logical consistency, and documentation quality, applying professional audit judgment.\n\nObjectives:\n1. Mathematical Accuracy: Verify calculations and footings\n2. Cross-Sheet Tie-Outs: Check figures agree across sheets\n3. Logical Consistency: Assess if procedures support the conclusion\n4. Documentation Quality: Check for clarity and completeness\n5. Materiality: Assume 1% of net income threshold if not defined\n\nRespond in JSON format:\n\x7b\n  \"verdict\": \"TRUE\" | \"FALSE\" | \"PARTIALLY_TRUE\" | \"INSUFFICIENT_DATA\",\n  \"confidence\": 0-100,\n  \"reasoning\": \"Detailed explanation of your evaluation and rationale.\",\n  \"key_findings\": [\"Main findings that influenced your conclusion.\"],\n  \"discrepancies\": [\"List of issues or inconsistencies found, leave empty if none.\"],\n  \"recommendations\": [\"Actionable suggestions to correct or improve the workpaper.\"]\n\x7d\n"

/-- Models `AssertionEvaluator.evaluate_assertion` (src/home.py lines
92-128): assembles the prompt and calls the model; the stripped response
text is returned, and a raised exception is caught and serialized as the
`ERROR` dictionary with confidence 0 and the exception text in the
reasoning. -/
def evaluate_assertion (ext : Extern) (wb : Workbook) (assertion : Cell)
    (procedures : List Entry) : String :=
  let prompt := promptTemplate (prepare_context ext wb assertion procedures)
  match ext.model prompt with
  | .ok t => String.mk (pyStrip t.data)
  | .error e => ext.dumpsErr ("LLM evaluation error: " ++ e)

/-- Models one evaluation record appended to `self.evaluation_results`. -/
structure EvaluationRecord where
  assertion : Cell
  procedures : List Entry
  raw_result : String
  parsed_result : Json

/-- Models the body of one iteration of the `evaluate_all` loop (src/home.py
lines 196-215): evaluate the block, parse the result text, and fall back to
the `Parse error` dictionary when parsing raises. -/
def recordOf (ext : Extern) (wb : Workbook) (b : Block) : EvaluationRecord :=
  let result_text := evaluate_assertion ext wb b.assertion b.procedures
  let parsed := match parse_json_result ext.loads result_text with
    | .ok j => j
    | .error e => parseErrObj e
  ⟨b.assertion, b.procedures, result_text, parsed⟩

/-- Models the two observable events of one `evaluate_all` run: a progress
callback invocation with its `(current, total)` arguments, and one record
appended to `self.evaluation_results`. -/
inductive TraceEv where
  | cb (current total : Nat) : TraceEv
  | app : TraceEv
deriving DecidableEq, Repr

/-- Models the `for i, block in enumerate(assertions, 1)` loop of
`evaluate_all` (src/home.py lines 192-215): the callback fires first (when
one is supplied), then the block is evaluated and its record appended.  The
returned trace lists the events in program order alongside the accumulated
records. -/
def runBlocks (ext : Extern) (wb : Workbook) (hasCb : Bool) (total : Nat) :
    Nat → List Block → List TraceEv × List EvaluationRecord
  | _, [] => ([], [])
  | i, b :: bs =>
    let r := recordOf ext wb b
    let rest := runBlocks ext wb hasCb total (i + 1) bs
    ((if hasCb then [TraceEv.cb i total] else []) ++ TraceEv.app :: rest.1,
     r :: rest.2)

/-- Models `AssertionEvaluator.evaluate_all` (src/home.py lines 187-217):
extracts the blocks (propagating any raise), resets the accumulator, runs
the loop, and returns the number of blocks.  `hasCb` models whether a
`progress_callback` was supplied. -/
def evaluate_all (ext : Extern) (wb : Workbook) (hasCb : Bool)
    (sheet_name : String := "Main") :
    Except String (List TraceEv × List EvaluationRecord × Nat) :=
  (extract_assertions wb sheet_name).map fun blocks =>
    let res := runBlocks ext wb hasCb blocks.length 1 blocks
    (res.1, res.2, blocks.length)

/-- Models one flowable appended by `generate_pdf_report`: a styled
paragraph, the fixed `Spacer(1, 12)`, or a `PageBreak`. -/
inductive El where
  | para (style text : String) : El
  | spacer : El
  | pageBreak : El
deriving DecidableEq, Repr

/-- Models the labeled bullet group of one optional section of a report
entry (src/home.py lines 170-175): nothing when the list is absent or
empty, else a heading (the Python `section.replace("_", " ").title() + ":"`
transform of the key, inlined for the three literal keys used) followed by
one indented paragraph per item. -/
def sectionGroup (parsed : Json) (key heading : String) : List El :=
  let items := jItems parsed key
  if items.isEmpty then []
  else El.para "Heading4" heading ::
    items.map (fun it => El.para "Normal" (" " ++ it.pyStr))

/-- Models the flowables of one report section (src/home.py lines 161-175):
assertion heading, verdict line, reasoning line, and the non-empty optional
groups. -/
def sectionEls (r : EvaluationRecord) : List El :=
  let parsed := r.parsed_result
  let verdict := jgetD parsed "verdict" (Json.str "UNKNOWN")
  let confidence := jgetD parsed "confidence" (Json.num 0)
  let reasoning := jgetD parsed "reasoning" (Json.str "N/A")
  [El.para "Heading2" r.assertion.pyStr,
   El.para "Heading3"
     ("Verdict: " ++ verdict.pyStr ++ " (Confidence: " ++
       confidence.pyStr ++ "%)"),
   El.para "Normal" ("Reasoning: " ++ reasoning.pyStr)] ++
  sectionGroup parsed "key_findings" "Key Findings:" ++
  sectionGroup parsed "discrepancies" "Discrepancies:" ++
  sectionGroup parsed "recommendations" "Recommendations:"

/-- Models the report loop of `generate_pdf_report` (src/home.py lines
161-178): each section is followed by a page break except the last
(`if idx < len(self.evaluation_results)`). -/
def renderLoop (total : Nat) : Nat → List EvaluationRecord → List El
  | _, [] => []
  | idx, r :: rs =>
    sectionEls r ++ (if idx < total then [El.pageBreak] else []) ++
    renderLoop total (idx + 1) rs

/-- Models `AssertionEvaluator.generate_pdf_report` (src/home.py lines
146-185): with no accumulated results it returns `(None, None)` and builds
no document, modelled as `none`; otherwise the flowable list is built (the
title, a `Generated:` line with the external timestamp, a spacer, then the
sections) and handed to the external document builder, modelled as `some`
of the flowables. -/
def generate_pdf_report (ts : String) (results : List EvaluationRecord) :
    Option (List El) :=
  if results.isEmpty then none
  else some
    ([El.para "Title" "Evaluation Report",
      El.para "Normal" ("Generated: " ++ ts), El.spacer] ++
     renderLoop results.length 1 results)

/-- Modelled from the spec: the output-document contract of section 6 —
one section per assertion, in block order, with consecutive sections
separated by a hard page break. -/
def specReport (ts : String) (results : List EvaluationRecord) : List El :=
  [El.para "Title" "Evaluation Report",
   El.para "Normal" ("Generated: " ++ ts), El.spacer] ++
  List.intercalate [El.pageBreak] (results.map sectionEls)

/-- Modelled from the spec: the section layout rule of section 6 — sections
in block order, sections after the first separated by a hard page break. -/
def specSections : List EvaluationRecord → List El
  | [] => []
  | [r] => sectionEls r
  | r :: rs => sectionEls r ++ El.pageBreak :: specSections rs

lemma renderLoop_eq_specSections :
    ∀ (rs : List EvaluationRecord) (idx total : Nat),
      idx + rs.length = total + 1 →
      renderLoop total idx rs = specSections rs := by
  intro rs
  induction rs with
  | nil => intro idx total _; rfl
  | cons r rs ih =>
    intro idx total htot
    cases rs with
    | nil =>
      simp only [List.length_cons, List.length_nil, Nat.zero_add] at htot
      have : ¬ idx < total := by omega
      simp [renderLoop, specSections, this]
    | cons r' rs' =>
      have hlt : idx < total := by
        simp only [List.length_cons] at htot; omega
      have ih' := ih (idx + 1) total (by simp only [List.length_cons] at htot ⊢; omega)
      rw [renderLoop.eq_2, if_pos hlt, ih']
      simp [specSections]

/-- Claim C10: when the accumulated evaluation_results list is empty,
generate_pdf_report returns (None, None) and produces no document, instead
of raising or emitting an empty report; with at least one record a document
is produced. -/
theorem generate_pdf_report_empty_none :
    (∀ ts : String, generate_pdf_report ts [] = none) ∧
    ∀ (ts : String) (r : EvaluationRecord) (rs : List EvaluationRecord),
      (generate_pdf_report ts (r :: rs)).isSome = true :=
  ⟨fun _ => rfl, fun _ _ _ => rfl⟩

/-- Report record used by the C9 argument: verdict TRUE, confidence 85,
reasoning present, optional keys absent. -/
def c9Record : EvaluationRecord :=
  ⟨Cell.str "A", [], "",
   Json.obj [("verdict", Json.str "TRUE"), ("confidence", Json.num 85),
             ("reasoning", Json.str "ok")]⟩

/-- Claim C9, counterexample: the generated section contains no paragraph
of the claimed literal form `<VERDICT> (Confidence: <N>%)`; its verdict
line carries a `Verdict: ` prefix. -/
theorem verdict_line_form_cex :
    (generate_pdf_report "ts" [c9Record]).map
      (fun els => decide (El.para "Heading3" "TRUE (Confidence: 85%)" ∈ els)) =
        some false ∧
    (generate_pdf_report "ts" [c9Record]).map
      (fun els =>
        decide (El.para "Heading3" "Verdict: TRUE (Confidence: 85%)" ∈ els)) =
        some true := by
  constructor <;> decide

/-- Claim C9 (amended): generate_pdf_report produces one section per
EvaluationRecord, in block order, with consecutive sections after the first
separated by a hard page break; a section with only the three required keys
parsed consists of the assertion text, the verdict line
`Verdict: <VERDICT> (Confidence: <N>%)`, and the reasoning paragraph, with
the absent optional keys defaulting to empty arrays and hence rendering no
labeled group; and a section whose parsed verdict carries the three
optional list keys renders, after those three paragraphs, exactly the
non-empty lists as labeled groups (heading plus one indented paragraph per
item), a present-but-empty list rendering nothing. -/
theorem generate_pdf_report_sections (ts : String)
    (results : List EvaluationRecord) (hne : results ≠ [])
    (r : EvaluationRecord) (v rea : String) (n : Int)
    (hp : r.parsed_result =
      Json.obj [("verdict", Json.str v), ("confidence", Json.num n),
                ("reasoning", Json.str rea)])
    (r2 : EvaluationRecord) (v2 rea2 : String) (n2 : Int)
    (ks ds rs : List Json)
    (hp2 : r2.parsed_result =
      Json.obj [("verdict", Json.str v2), ("confidence", Json.num n2),
                ("reasoning", Json.str rea2),
                ("key_findings", Json.arr ks),
                ("discrepancies", Json.arr ds),
                ("recommendations", Json.arr rs)]) :
    generate_pdf_report ts results =
      some ([El.para "Title" "Evaluation Report",
             El.para "Normal" ("Generated: " ++ ts), El.spacer] ++
            specSections results) ∧
    sectionEls r =
      [El.para "Heading2" r.assertion.pyStr,
       El.para "Heading3"
         ("Verdict: " ++ v ++ " (Confidence: " ++ toString n ++ "%)"),
       El.para "Normal" ("Reasoning: " ++ rea)] ∧
    sectionEls r2 =
      [El.para "Heading2" r2.assertion.pyStr,
       El.para "Heading3"
         ("Verdict: " ++ v2 ++ " (Confidence: " ++ toString n2 ++ "%)"),
       El.para "Normal" ("Reasoning: " ++ rea2)] ++
      (if ks.isEmpty then [] else El.para "Heading4" "Key Findings:" ::
        ks.map (fun it => El.para "Normal" (" " ++ it.pyStr))) ++
      (if ds.isEmpty then [] else El.para "Heading4" "Discrepancies:" ::
        ds.map (fun it => El.para "Normal" (" " ++ it.pyStr))) ++
      (if rs.isEmpty then [] else El.para "Heading4" "Recommendations:" ::
        rs.map (fun it => El.para "Normal" (" " ++ it.pyStr))) := by
  refine ⟨?_, ?_, ?_⟩
  · have hnem : results.isEmpty = false := by
      cases results with
      | nil => exact absurd rfl hne
      | cons a l => rfl
    rw [generate_pdf_report, hnem]
    simp only [Bool.false_eq_true, if_false,
      renderLoop_eq_specSections results 1 results.length (by omega)]
  · simp [sectionEls, jgetD, jget, jgetFields, hp, sectionGroup, jItems,
      Json.pyStr]
  · simp only [sectionEls]
    rw [hp2]
    simp [sectionGroup, jItems, jgetD, jget, jgetFields, Json.pyStr]

/-- Report record used by the C9 witness: all three optional keys present,
one non-empty, one empty, one non-empty. -/
def c9FullRecord : EvaluationRecord :=
  ⟨Cell.str "B", [], "",
   Json.obj [("verdict", Json.str "FALSE"), ("confidence", Json.num 40),
             ("reasoning", Json.str "bad"),
             ("key_findings", Json.arr [Json.str "f1", Json.str "f2"]),
             ("discrepancies", Json.arr []),
             ("recommendations", Json.arr [Json.str "r1"])]⟩

/-- Claim C9, witness instance of the amended theorem: the non-empty
finding and recommendation lists render as labeled groups, the
present-but-empty discrepancy list renders nothing. -/
theorem generate_pdf_report_sections_witness :
    generate_pdf_report "ts" [c9Record] =
      some ([El.para "Title" "Evaluation Report",
             El.para "Normal" ("Generated: " ++ "ts"), El.spacer] ++
            specSections [c9Record]) ∧
    sectionEls c9Record =
      [El.para "Heading2" (Cell.str "A").pyStr,
       El.para "Heading3"
         ("Verdict: " ++ "TRUE" ++ " (Confidence: " ++ toString (85 : Int) ++
           "%)"),
       El.para "Normal" ("Reasoning: " ++ "ok")] ∧
    sectionEls c9FullRecord =
      [El.para "Heading2" (Cell.str "B").pyStr,
       El.para "Heading3"
         ("Verdict: " ++ "FALSE" ++ " (Confidence: " ++
           toString (40 : Int) ++ "%)"),
       El.para "Normal" ("Reasoning: " ++ "bad")] ++
      (El.para "Heading4" "Key Findings:" ::
        [Json.str "f1", Json.str "f2"].map
          (fun it => El.para "Normal" (" " ++ it.pyStr))) ++
      [] ++
      (El.para "Heading4" "Recommendations:" ::
        [Json.str "r1"].map
          (fun it => El.para "Normal" (" " ++ it.pyStr))) :=
  generate_pdf_report_sections "ts" [c9Record] (by simp) c9Record "TRUE" "ok"
    85 rfl c9FullRecord "FALSE" "bad" 40 [Json.str "f1", Json.str "f2"] []
    [Json.str "r1"] rfl

/-- Claim C7, counterexample: an absent link is answered with an error
record (`No link provided`), not a valid no-op; a blank string link also
produces an error record. -/
theorem read_linked_sheet_absent_is_error_cex :
    (read_linked_sheet [] Cell.empty).isErr = true ∧
    read_linked_sheet [] Cell.empty = SheetResult.err "No link provided" ∧
    (read_linked_sheet [] (Cell.str "")).isErr = true :=
  ⟨rfl, rfl, rfl⟩

/-- Claim C7 (amended): read_linked_sheet never raises; an absent link value
yields the error record `No link provided` (the pipeline caller skips
resolution for absent links, so they are a no-op at the pipeline level, as
the context equation shows), and every failing lookup yields an error
record with a human-readable `Error reading sheet:` message. -/
theorem read_linked_sheet_amended (wb : Workbook) (link : Cell) (e : Entry)
    (i : Nat) (es : List Entry) (ext : Extern)
    (hne : link.notna = true)
    (hlook : lookupSheet wb (normalizeLink link.pyStr) = none)
    (hel : e.link = Cell.empty) :
    read_linked_sheet wb Cell.empty = SheetResult.err "No link provided" ∧
    read_linked_sheet wb link =
      SheetResult.err ("Error reading sheet: " ++ normalizeLink link.pyStr) ∧
    contextProcs ext wb i (e :: es) =
      "Procedure " ++ toString i ++ "\nDescription: " ++ e.procedure.pyStr ++
        "\n\n" ++ "---\n\n" ++ contextProcs ext wb (i + 1) es := by
  refine ⟨rfl, ?_, ?_⟩
  · rw [read_linked_sheet, hne]
    simp only [Bool.true_eq_false, if_false, hlook]
  · rw [contextProcs.eq_2, hel]
    simp [Cell.notna]

/-- Claim C7, witness instance of the amended theorem. -/
theorem read_linked_sheet_amended_witness :
    read_linked_sheet [] Cell.empty = SheetResult.err "No link provided" ∧
    read_linked_sheet [] (Cell.str "X") =
      SheetResult.err
        ("Error reading sheet: " ++ normalizeLink (Cell.str "X").pyStr) ∧
    contextProcs ⟨fun _ => none, id, fun _ => "", fun _ => .ok ""⟩ [] 1
        [⟨Cell.str "p", Cell.empty⟩] =
      "Procedure " ++ toString 1 ++ "\nDescription: " ++
        (Cell.str "p").pyStr ++ "\n\n" ++ "---\n\n" ++
        contextProcs ⟨fun _ => none, id, fun _ => "", fun _ => .ok ""⟩ [] 2
          [] :=
  read_linked_sheet_amended [] (Cell.str "X") ⟨Cell.str "p", Cell.empty⟩ 1 []
    ⟨fun _ => none, id, fun _ => "", fun _ => .ok ""⟩ rfl rfl rfl

lemma pyFindIdx_eq_none {α : Type} {p : α → Bool} :
    ∀ {l : List α}, (∀ a ∈ l, p a = false) → pyFindIdx p l = none := by
  intro l
  induction l with
  | nil => intro _; rfl
  | cons a l ih =>
    intro h
    have ha := h a (by simp)
    simp [pyFindIdx, ha, ih fun x hx => h x (by simp [hx])]

lemma pyFindIdx_eq_some {α : Type} {p : α → Bool} :
    ∀ (l : List α) (i : Nat) (hi : i < l.length), p l[i] = true →
      (∀ j (hj : j < l.length), j < i → p l[j] = false) →
      pyFindIdx p l = some i := by
  intro l
  induction l with
  | nil => intro i hi; simp at hi
  | cons a l ih =>
    intro i hi hp hb
    cases i with
    | zero => simp only [List.getElem_cons_zero] at hp; simp [pyFindIdx, hp]
    | succ i' =>
      have ha := hb 0 (by simp) (by omega)
      simp only [List.getElem_cons_zero] at ha
      have := ih i' (by simpa using hi)
        (by simpa using hp)
        (fun j hj hji => by
          have := hb (j + 1) (by simpa using hj) (by omega)
          simpa using this)
      simp [pyFindIdx, ha, this]

/-- Claim C3: for every grid containing zero cells whose value is exactly
the label `"Assertion"`, read_assertions fails (the run cannot start and no
table is returned); the Python code raises out of the function. -/
theorem read_assertions_label_missing (wb : Workbook) (sheet : String)
    (g : Grid) (hwb : lookupSheet wb sheet = some g)
    (h : ∀ row ∈ g, ∀ c ∈ row, c ≠ Cell.str "Assertion") :
    read_assertions wb sheet =
      .error "NameError: name col_idx is not defined" := by
  have hfind : pyFindIdx (rowHasLabel (Cell.str "Assertion")) g = none := by
    apply pyFindIdx_eq_none
    intro row hrow
    simp only [rowHasLabel, List.any_eq_false, decide_eq_true_eq]
    exact fun c hc => h row hrow c hc
  simp only [read_assertions, hwb, hfind]

/-- Claim C3, witness instance. -/
theorem read_assertions_label_missing_witness :
    read_assertions [("Main", [[Cell.str "x", Cell.num 3], []])] "Main" =
      .error "NameError: name col_idx is not defined" :=
  read_assertions_label_missing [("Main", [[Cell.str "x", Cell.num 3], []])]
    "Main" [[Cell.str "x", Cell.num 3], []] rfl (by decide)

/-- Claim C8: for every grid whose only row containing a cell equal to
`"Assertion"` is row `r`, with the first such cell in column `c`,
read_assertions returns the table whose header is the label row from
column `c` on (so row `r` is promoted to column names and excluded from the
data), whose data rows are the rows strictly below row `r` with the columns
left of `c` discarded, and whose first data row is the row immediately
below the header row. -/
theorem read_assertions_locates_table (wb : Workbook) (sheet : String)
    (g : Grid) (r c : Nat) (hwb : lookupSheet wb sheet = some g)
    (hr : r < g.length) (hc : c < g[r].length)
    (hcell : g[r][c] = Cell.str "Assertion")
    (hrow : ∀ j (hj : j < g.length), j ≠ r →
      rowHasLabel (Cell.str "Assertion") g[j] = false)
    (hcol : ∀ j (hj : j < g[r].length), j < c →
      g[r][j] ≠ Cell.str "Assertion") :
    read_assertions wb sheet =
      .ok ⟨g[r].drop c, (g.drop (r + 1)).map (·.drop c)⟩ ∧
    ((g.drop (r + 1)).map (·.drop c)).length = g.length - (r + 1) ∧
    ∀ (hr1 : r + 1 < g.length),
      ((g.drop (r + 1)).map (·.drop c)).getD 0 [] = g[r + 1].drop c := by
  have hfindRow : pyFindIdx (rowHasLabel (Cell.str "Assertion")) g = some r := by
    apply pyFindIdx_eq_some g r hr
    · simp only [rowHasLabel, List.any_eq_true, decide_eq_true_eq]
      exact ⟨g[r][c], List.getElem_mem hc, hcell⟩
    · intro j hj hji
      exact hrow j hj (by omega)
  have hgetD : g.getD r [] = g[r] := List.getD_eq_getElem g [] hr
  have hfindCol :
      pyFindIdx (fun x => decide (x = Cell.str "Assertion")) g[r] = some c := by
    apply pyFindIdx_eq_some g[r] c hc
    · simp [hcell]
    · intro j hj hji
      simp only [decide_eq_false_iff_not]
      exact hcol j hj hji
  refine ⟨?_, ?_, ?_⟩
  · simp only [read_assertions, hwb, hfindRow, hgetD, hfindCol]
  · simp
  · intro hr1
    have hlen : 0 < ((g.drop (r + 1)).map (·.drop c)).length := by
      simp; omega
    rw [List.getD_eq_getElem _ _ hlen]
    simp

/-- Claim C8, witness instance (instantiated at a grid with junk above and
left of the label cell). -/
theorem read_assertions_locates_table_witness :
    read_assertions
        [("Main", [[Cell.num 7],
                   [Cell.str "x", Cell.str "Assertion", Cell.str "Link"],
                   [Cell.empty, Cell.str "A1", Cell.empty]])] "Main" =
      .ok ⟨[Cell.str "Assertion", Cell.str "Link"],
           [[Cell.str "A1", Cell.empty]]⟩ ∧
    ([[Cell.str "A1", Cell.empty]] : List (List Cell)).length = 1 ∧
    ([[Cell.str "A1", Cell.empty]] : List (List Cell)).getD 0 [] =
      [Cell.str "A1", Cell.empty] := by
  have h := read_assertions_locates_table
    [("Main", [[Cell.num 7],
               [Cell.str "x", Cell.str "Assertion", Cell.str "Link"],
               [Cell.empty, Cell.str "A1", Cell.empty]])] "Main"
    [[Cell.num 7],
     [Cell.str "x", Cell.str "Assertion", Cell.str "Link"],
     [Cell.empty, Cell.str "A1", Cell.empty]] 1 1
    rfl (by decide) (by decide) (by decide) (by decide) (by decide)
  exact ⟨h.1, h.2.1, h.2.2 (by decide)⟩

/-- Models the ordered labels of the rows whose `Assertion` cell is
non-empty, as the spec counts them. -/
def labelsOf (header : List Cell) (rows : List (List Cell)) : List Cell :=
  rows.filterMap (fun row =>
    let v := colGet header row "Assertion"
    if v.notna then some v else none)

lemma labelsOf_length (header : List Cell) :
    ∀ rows : List (List Cell),
      (labelsOf header rows).length =
        rows.countP (fun row => (colGet header row "Assertion").notna) := by
  intro rows
  induction rows with
  | nil => rfl
  | cons row rest ih =>
    by_cases hv : (colGet header row "Assertion").notna = true
    · simp [labelsOf, List.countP_cons, hv] at ih ⊢; omega
    · simp only [Bool.not_eq_true] at hv
      simp [labelsOf, List.countP_cons, hv] at ih ⊢; omega

lemma extractLoop_spec (header : List Cell) :
    ∀ rows : List (List Cell),
      (∀ row ∈ rows, (colGet header row "Assertion").notna =
        (colGet header row "Assertion").truthy) →
      (∀ (c : Cell) (details : List Entry), c.truthy = true → details ≠ [] →
        (extractLoop header (some c) details rows).map Block.assertion =
            c :: labelsOf header rows ∧
          ∀ b ∈ extractLoop header (some c) details rows,
            b.procedures ≠ []) ∧
      ((extractLoop header none [] rows).map Block.assertion =
          labelsOf header rows ∧
        ∀ b ∈ extractLoop header none [] rows, b.procedures ≠ []) := by
  intro rows
  induction rows with
  | nil =>
    intro _
    refine ⟨fun c details hct hd => ?_, by simp [extractLoop, labelsOf]⟩
    simp [extractLoop, labelsOf, hct, hd]
  | cons row rest ih =>
    intro h
    have hrow := h row (by simp)
    have ih' := ih (fun r hr => h r (by simp [hr]))
    by_cases hv : (colGet header row "Assertion").notna = true
    · have htr : (colGet header row "Assertion").truthy = true := hrow ▸ hv
      have hsub := ih'.1 (colGet header row "Assertion")
        [rowEntry header row] htr (by simp)
      have hlab : labelsOf header (row :: rest) =
          colGet header row "Assertion" :: labelsOf header rest := by
        simp [labelsOf, hv]
      constructor
      · intro c details hct hd
        constructor
        · simp only [extractLoop, hv, if_true, hct, List.map_append,
            List.map_cons, List.map_nil, hlab, hsub.1]
          rfl
        · intro b hb
          simp only [extractLoop, hv, if_true, hct, List.mem_append,
            List.mem_singleton] at hb
          rcases hb with hb | hb
          · subst hb; exact hd
          · exact hsub.2 b hb
      · constructor
        · simp only [extractLoop, hv, if_true, List.nil_append, hlab, hsub.1]
        · intro b hb
          simp only [extractLoop, hv, if_true, List.nil_append] at hb
          exact hsub.2 b hb
    · simp only [Bool.not_eq_true] at hv
      have htr : (colGet header row "Assertion").truthy = false := hrow ▸ hv
      have hlab : labelsOf header (row :: rest) = labelsOf header rest := by
        simp [labelsOf, hv]
      constructor
      · intro c details hct hd
        have hsub := ih'.1 c (details ++ [rowEntry header row]) hct (by simp)
        constructor
        · simp only [extractLoop, hv, Bool.false_eq_true, if_false, hct,
            if_true, hlab, hsub.1]
        · intro b hb
          simp only [extractLoop, hv, Bool.false_eq_true, if_false, hct,
            if_true] at hb
          exact hsub.2 b hb
      · constructor
        · simp only [extractLoop, hv, Bool.false_eq_true, if_false, hlab,
            ih'.2.1]
        · intro b hb
          simp only [extractLoop, hv, Bool.false_eq_true, if_false] at hb
          exact ih'.2.2 b hb

/-- Grid exhibiting the notna/truthiness mismatch of `extract_assertions`:
its one labeled data row carries the numeric label 0, which `pd.notna`
accepts but Python truthiness rejects. -/
def c1Grid : Grid :=
  [[Cell.str "Assertion", Cell.str "Testing procedures performed",
    Cell.str "Link"],
   [Cell.num 0, Cell.str "p1", Cell.empty]]

/-- Claim C1, counterexample: the located table has exactly one data row
with a non-empty (`notna`) `Assertion` cell, namely the numeric value 0,
yet extract_assertions returns zero blocks: the block whose label is falsy
is silently dropped by the `if current:` close conditions. -/
theorem extract_assertions_falsy_label_cex :
    extract_assertions [("Main", c1Grid)] "Main" = .ok [] ∧
    (read_assertions [("Main", c1Grid)] "Main").map
      (fun t => t.rows.countP
        (fun row => (colGet t.header row "Assertion").notna)) =
      .ok 1 := by
  constructor <;> rfl

/-- Claim C1 (amended): for every located table all of whose `Assertion`
cells are either empty or truthy (a non-empty text or a non-zero number),
extract_assertions returns exactly one block per labeled row, each block
has at least one procedure entry (the labeled row seeds the first entry),
and the order of blocks equals the order of the labeled rows. -/
theorem extract_assertions_blocks_amended (wb : Workbook) (sheet : String)
    (t : LocatedTable) (hex : read_assertions wb sheet = .ok t)
    (h : ∀ row ∈ t.rows, (colGet t.header row "Assertion").notna =
      (colGet t.header row "Assertion").truthy) :
    extract_assertions wb sheet = .ok (extractLoop t.header none [] t.rows) ∧
    (extractLoop t.header none [] t.rows).length =
      t.rows.countP (fun row => (colGet t.header row "Assertion").notna) ∧
    (extractLoop t.header none [] t.rows).map Block.assertion =
      labelsOf t.header t.rows ∧
    ∀ b ∈ extractLoop t.header none [] t.rows, b.procedures ≠ [] := by
  have hspec := (extractLoop_spec t.header t.rows h).2
  refine ⟨by simp [extract_assertions, hex, Except.map], ?_, hspec.1,
    hspec.2⟩
  have := congrArg List.length hspec.1
  simpa [labelsOf_length] using this

/-- Claim C1, witness instance: a two-block table with one blank-label
detail row. -/
theorem extract_assertions_blocks_amended_witness :
    extract_assertions
        [("Main",
          [[Cell.str "Assertion", Cell.str "Testing procedures performed",
            Cell.str "Link"],
           [Cell.str "A1", Cell.str "p1", Cell.empty],
           [Cell.empty, Cell.str "p2", Cell.str "S1!A1"],
           [Cell.str "A2", Cell.str "p3", Cell.empty]])] "Main" =
      .ok (extractLoop
        [Cell.str "Assertion", Cell.str "Testing procedures performed",
         Cell.str "Link"] none []
        [[Cell.str "A1", Cell.str "p1", Cell.empty],
         [Cell.empty, Cell.str "p2", Cell.str "S1!A1"],
         [Cell.str "A2", Cell.str "p3", Cell.empty]]) ∧
    (extractLoop
        [Cell.str "Assertion", Cell.str "Testing procedures performed",
         Cell.str "Link"] none []
        [[Cell.str "A1", Cell.str "p1", Cell.empty],
         [Cell.empty, Cell.str "p2", Cell.str "S1!A1"],
         [Cell.str "A2", Cell.str "p3", Cell.empty]]).length = 2 ∧
    (extractLoop
        [Cell.str "Assertion", Cell.str "Testing procedures performed",
         Cell.str "Link"] none []
        [[Cell.str "A1", Cell.str "p1", Cell.empty],
         [Cell.empty, Cell.str "p2", Cell.str "S1!A1"],
         [Cell.str "A2", Cell.str "p3", Cell.empty]]).map Block.assertion =
      labelsOf
        [Cell.str "Assertion", Cell.str "Testing procedures performed",
         Cell.str "Link"]
        [[Cell.str "A1", Cell.str "p1", Cell.empty],
         [Cell.empty, Cell.str "p2", Cell.str "S1!A1"],
         [Cell.str "A2", Cell.str "p3", Cell.empty]] := by
  have h := extract_assertions_blocks_amended
    [("Main",
      [[Cell.str "Assertion", Cell.str "Testing procedures performed",
        Cell.str "Link"],
       [Cell.str "A1", Cell.str "p1", Cell.empty],
       [Cell.empty, Cell.str "p2", Cell.str "S1!A1"],
       [Cell.str "A2", Cell.str "p3", Cell.empty]])] "Main"
    ⟨[Cell.str "Assertion", Cell.str "Testing procedures performed",
      Cell.str "Link"],
     [[Cell.str "A1", Cell.str "p1", Cell.empty],
      [Cell.empty, Cell.str "p2", Cell.str "S1!A1"],
      [Cell.str "A2", Cell.str "p3", Cell.empty]]⟩ rfl (by decide)
  exact ⟨h.1, h.2.1.trans (by decide), h.2.2.1⟩

lemma runBlocks_records (ext : Extern) (wb : Workbook) (hasCb : Bool)
    (total : Nat) :
    ∀ (bs : List Block) (i : Nat),
      (runBlocks ext wb hasCb total i bs).2 = bs.map (recordOf ext wb) := by
  intro bs
  induction bs with
  | nil => intro i; rfl
  | cons b bs ih => intro i; simp [runBlocks, ih (i + 1)]

/-- Modelled from the spec: the progress-event trace the orchestration
section describes — for blocks `i, i + 1, ...` one callback invocation with
arguments `(block index, total)` around each record append. -/
def progressTrace (total : Nat) : Nat → Nat → List TraceEv
  | _, 0 => []
  | i, n + 1 => .cb i total :: .app :: progressTrace total (i + 1) n

lemma runBlocks_trace (ext : Extern) (wb : Workbook) (total : Nat) :
    ∀ (bs : List Block) (i : Nat),
      (runBlocks ext wb true total i bs).1 = progressTrace total i bs.length := by
  intro bs
  induction bs with
  | nil => intro i; rfl
  | cons b bs ih =>
    intro i
    simp [runBlocks, progressTrace, ih (i + 1)]

/-- Claim C4: for every run of evaluate_all whose table extraction succeeds
with blocks `bs`, the run returns `.ok` with exactly one EvaluationRecord
per block, in block order (the record list is the per-block map, so
per-block failures never drop or halt later blocks), and the returned count
is the number of blocks; every block whose model call throws gets a record
whose parsed verdict is `"ERROR"` with confidence 0.  The hypothesis `hld`
states that the external JSON codec parses its own serialization of the
error dictionary back to that dictionary. -/
theorem evaluate_all_error_isolated (ext : Extern) (wb : Workbook)
    (hasCb : Bool) (sheet : String) (blocks : List Block)
    (hex : extract_assertions wb sheet = .ok blocks)
    (hld : ∀ m, ext.loads (ext.dumpsErr m) = some (errObj m)) :
    evaluate_all ext wb hasCb sheet =
      .ok ((runBlocks ext wb hasCb blocks.length 1 blocks).1,
           blocks.map (recordOf ext wb), blocks.length) ∧
    (blocks.map (recordOf ext wb)).length = blocks.length ∧
    ∀ (i : Nat) (e : String) (hi : i < blocks.length),
      ext.model (promptTemplate (prepare_context ext wb
        blocks[i].assertion blocks[i].procedures)) = .error e →
      (blocks.map (recordOf ext wb)).get? i =
          some (recordOf ext wb blocks[i]) ∧
        jget (recordOf ext wb blocks[i]).parsed_result "verdict" =
          some (Json.str "ERROR") ∧
        jget (recordOf ext wb blocks[i]).parsed_result "confidence" =
          some (Json.num 0) := by
  refine ⟨?_, by simp, ?_⟩
  · have hrec := runBlocks_records ext wb hasCb blocks.length blocks 1
    simp [evaluate_all, hex, Except.map, hrec]
  · intro i e hi hmodel
    have hres : recordOf ext wb blocks[i] =
        ⟨blocks[i].assertion, blocks[i].procedures,
         ext.dumpsErr ("LLM evaluation error: " ++ e),
         errObj ("LLM evaluation error: " ++ e)⟩ := by
      rw [recordOf]
      have htext : evaluate_assertion ext wb blocks[i].assertion
          blocks[i].procedures =
          ext.dumpsErr ("LLM evaluation error: " ++ e) := by
        rw [evaluate_assertion, hmodel]
      rw [htext]
      rw [parse_json_result.eq_def, hld]
    refine ⟨?_, ?_, ?_⟩
    · rw [List.get?_eq_getElem?]
      simp [hi]
    · rw [hres]; rfl
    · rw [hres]; rfl

/-- External-call bundle whose model call always raises: the decoder undoes
the serializer, the serializer is the identity, and every model call
throws. -/
def errorModelExt : Extern :=
  ⟨fun s => some (errObj s), id, fun _ => "", fun _ => .error "boom"⟩

/-- Two-assertion workbook used to instantiate the evaluate_all claims. -/
def twoBlockWb : Workbook :=
  [("Main",
    [[Cell.str "Assertion", Cell.str "Testing procedures performed",
      Cell.str "Link"],
     [Cell.str "A1", Cell.str "p", Cell.empty],
     [Cell.str "A2", Cell.str "q", Cell.empty]])]

/-- Blocks extracted from `twoBlockWb`. -/
def twoBlocks : List Block :=
  [⟨Cell.str "A1", [⟨Cell.str "p", Cell.empty⟩]⟩,
   ⟨Cell.str "A2", [⟨Cell.str "q", Cell.empty⟩]⟩]

/-- Claim C4, witness instance: both model calls throw, yet both records
are produced in order with `ERROR` verdicts and confidence 0, and the
returned count is 2. -/
theorem evaluate_all_error_isolated_witness :
    evaluate_all errorModelExt twoBlockWb true "Main" =
      .ok ((runBlocks errorModelExt twoBlockWb true twoBlocks.length 1
              twoBlocks).1,
           twoBlocks.map (recordOf errorModelExt twoBlockWb),
           twoBlocks.length) ∧
    (twoBlocks.map (recordOf errorModelExt twoBlockWb)).length = 2 ∧
    jget (recordOf errorModelExt twoBlockWb
        ⟨Cell.str "A1", [⟨Cell.str "p", Cell.empty⟩]⟩).parsed_result
        "verdict" = some (Json.str "ERROR") ∧
    jget (recordOf errorModelExt twoBlockWb
        ⟨Cell.str "A2", [⟨Cell.str "q", Cell.empty⟩]⟩).parsed_result
        "confidence" = some (Json.num 0) := by
  have h := evaluate_all_error_isolated errorModelExt twoBlockWb true "Main"
    twoBlocks rfl (fun m => rfl)
  exact ⟨h.1, h.2.1.trans (by decide),
    (h.2.2 0 "boom" (by decide) rfl).2.1,
    (h.2.2 1 "boom" (by decide) rfl).2.2⟩

/-- Decides the temporal property C6 claims of a trace: every callback
invocation `(i, n)` happens only once at least `i` records have been
appended, so that block `i`'s record append precedes its callback. -/
def progressAfterAppend : Nat → List TraceEv → Bool
  | _, [] => true
  | seen, TraceEv.app :: tr => progressAfterAppend (seen + 1) tr
  | seen, TraceEv.cb i _ :: tr => decide (i ≤ seen) && progressAfterAppend seen tr

/-- Claim C6, counterexample: on a one-block run the trace is a callback
`(1, 1)` followed by the record append — the callback fires before the
block's EvaluationRecord has been appended, so the after-completion
property is false. -/
theorem progress_before_append_cex :
    (evaluate_all errorModelExt
        [("Main",
          [[Cell.str "Assertion", Cell.str "Testing procedures performed",
            Cell.str "Link"],
           [Cell.str "A1", Cell.str "p", Cell.empty]])] true "Main").map
      (fun x => x.1) = .ok [TraceEv.cb 1 1, TraceEv.app] ∧
    (evaluate_all errorModelExt
        [("Main",
          [[Cell.str "Assertion", Cell.str "Testing procedures performed",
            Cell.str "Link"],
           [Cell.str "A1", Cell.str "p", Cell.empty]])] true "Main").map
      (fun x => progressAfterAppend 0 x.1) = .ok false := by
  constructor <;> rfl

/-- Claim C6 (amended): during evaluate_all with a progress callback, the
callback is invoked exactly once per block, immediately before that block's
evaluation (when `i - 1` records have been appended, not after its record),
with arguments `(i, total_count)`: the event trace is exactly
`cb (1, N), append, cb (2, N), append, ...` for the N blocks in order. -/
theorem evaluate_all_progress_trace (ext : Extern) (wb : Workbook)
    (sheet : String) (blocks : List Block)
    (hex : extract_assertions wb sheet = .ok blocks) :
    evaluate_all ext wb true sheet =
      .ok (progressTrace blocks.length 1 blocks.length,
           blocks.map (recordOf ext wb), blocks.length) ∧
    (blocks.map (recordOf ext wb)).length = blocks.length := by
  refine ⟨?_, by simp⟩
  have htr := runBlocks_trace ext wb blocks.length blocks 1
  have hrec := runBlocks_records ext wb true blocks.length blocks 1
  simp [evaluate_all, hex, Except.map, htr, hrec]

/-- Claim C6, witness instance of the amended theorem. -/
theorem evaluate_all_progress_trace_witness :
    evaluate_all errorModelExt twoBlockWb true "Main" =
      .ok (progressTrace twoBlocks.length 1 twoBlocks.length,
           twoBlocks.map (recordOf errorModelExt twoBlockWb),
           twoBlocks.length) ∧
    (twoBlocks.map (recordOf errorModelExt twoBlockWb)).length =
      twoBlocks.length :=
  evaluate_all_progress_trace errorModelExt twoBlockWb "Main" twoBlocks rfl

/-- Decides whether `pat` occurs as a contiguous substring. -/
def hasInfix (pat : List Char) : List Char → Bool
  | [] => pat.isEmpty
  | c :: cs => pat.isPrefixOf (c :: cs) || hasInfix pat cs

lemma removeOccF_of_no_infix {pat : List Char} :
    ∀ (fuel : Nat) (l : List Char), l.length ≤ fuel →
      hasInfix pat l = false → removeOccF pat fuel l = l := by
  intro fuel
  induction fuel with
  | zero =>
    intro l hlen _
    match l with
    | [] => rfl
  | succ fuel ih =>
    intro l hlen hinf
    match l with
    | [] => rfl
    | c :: cs =>
      rw [hasInfix, Bool.or_eq_false_iff] at hinf
      rw [removeOccF, if_neg (by simp [hinf.1]),
        ih cs (by simpa using hlen) hinf.2]

lemma removeOcc_of_no_infix {pat l : List Char}
    (h : hasInfix pat l = false) : removeOcc pat l = l :=
  removeOccF_of_no_infix l.length l (le_refl _) h

/-- Claim C2, counterexample: the normalization removes `!A1` occurrences
anywhere, not only as a trailing suffix (`a!A1b` becomes `ab`), and it is
not idempotent (`!!A1A1` normalizes to `!A1`, which normalizes further to
the empty string). -/
theorem normalizeLink_not_suffix_only_cex :
    normalizeLink "a!A1b" = "ab" ∧
    normalizeLink "!!A1A1" = "!A1" ∧
    normalizeLink (normalizeLink "!!A1A1") ≠ normalizeLink "!!A1A1" := by
  refine ⟨by decide, by decide, by decide⟩

/-- Claim C2 (amended): link normalization trims surrounding whitespace
first and then removes every occurrence (left to right, without overlap) of
the literal substring `\x27!A1`, then of `!A1`, anywhere in the string and
not only as a suffix; consequently it is idempotent only on inputs whose
normalized form is trimmed and contains no residual anchor substring.  The
inputs `Sheet1\x27!A1`, `Sheet1!A1` and `Sheet1` all map to the sheet name
`Sheet1`. -/
theorem normalizeLink_amended (s : String)
    (h1 : hasInfix "!A1".data (normalizeLink s).data = false)
    (h2 : hasInfix "\x27!A1".data (normalizeLink s).data = false)
    (h3 : pyStrip (normalizeLink s).data = (normalizeLink s).data) :
    normalizeLink (normalizeLink s) = normalizeLink s ∧
    normalizeLink "Sheet1\x27!A1" = "Sheet1" ∧
    normalizeLink "Sheet1!A1" = "Sheet1" ∧
    normalizeLink "Sheet1" = "Sheet1" ∧
    normalizeLink "a!A1b" = "ab" := by
  refine ⟨?_, by decide, by decide, by decide, by decide⟩
  conv_lhs => rw [normalizeLink]
  rw [h3, removeOcc_of_no_infix h2, removeOcc_of_no_infix h1]

/-- Claim C2, witness instance of the amended theorem. -/
theorem normalizeLink_amended_witness :
    normalizeLink (normalizeLink "Sheet1") = normalizeLink "Sheet1" ∧
    normalizeLink "Sheet1\x27!A1" = "Sheet1" ∧
    normalizeLink "Sheet1!A1" = "Sheet1" ∧
    normalizeLink "Sheet1" = "Sheet1" ∧
    normalizeLink "a!A1b" = "ab" :=
  normalizeLink_amended "Sheet1" (by decide) (by decide) (by decide)

/-- Backtick character of the fence markers. -/
def btick : Char := Char.ofNat 96

lemma fence_eq : fence = [btick, btick, btick] := by decide

lemma fenceJson_eq :
    fenceJson = [btick, btick, btick, 'j', 's', 'o', 'n'] := by decide

lemma fenceJson_split : fenceJson = fence ++ ['j', 's', 'o', 'n'] := by decide

lemma isPrefixOf_self_append (l r : List Char) :
    l.isPrefixOf (l ++ r) = true := by
  rw [List.isPrefixOf_iff_prefix]
  exact List.prefix_append l r

lemma splitFirst_append_self {pat : List Char} (h : pat ≠ []) (r : List Char) :
    splitFirst pat (pat ++ r) = some ([], r) := by
  match pat with
  | [] => exact absurd rfl h
  | p :: ps =>
    have hpre : (p :: ps).isPrefixOf (p :: (ps ++ r)) = true := by
      rw [← List.cons_append]; exact isPrefixOf_self_append _ _
    have hdrop : (p :: (ps ++ r)).drop (p :: ps).length = r := by
      rw [← List.cons_append]; exact List.drop_left _ _
    rw [List.cons_append, splitFirst, if_pos hpre, hdrop]

lemma splitFirst_none_of_no_infix {pat : List Char} :
    ∀ {l : List Char}, hasInfix pat l = false → splitFirst pat l = none := by
  intro l
  induction l with
  | nil => intro _; rfl
  | cons c cs ih =>
    intro h
    rw [hasInfix, Bool.or_eq_false_iff] at h
    rw [splitFirst, if_neg (by simp [h.1]), ih h.2]
    rfl

lemma hasInfix_append_left {a b : List Char} :
    ∀ {l : List Char}, hasInfix (a ++ b) l = true → hasInfix a l = true := by
  intro l
  induction l with
  | nil =>
    intro h
    rw [hasInfix] at h ⊢
    rw [List.isEmpty_iff] at h ⊢
    rcases List.append_eq_nil.mp h with ⟨h1, _⟩
    exact h1
  | cons c cs ih =>
    intro h
    rw [hasInfix, Bool.or_eq_true] at h ⊢
    rcases h with h | h
    · left
      rw [List.isPrefixOf_iff_prefix] at h ⊢
      exact (List.prefix_append a b).trans h
    · right; exact ih h

lemma fence_prefix_blocked (c : Char) (p' rest : List Char)
    (hp : hasInfix fence (c :: p') = false) :
    fence.isPrefixOf (c :: (p' ++ '\n' :: rest)) = false := by
  by_contra hcon
  rw [Bool.not_eq_false, List.isPrefixOf_iff_prefix, fence_eq,
    List.cons_prefix_cons] at hcon
  obtain ⟨hc, h2⟩ := hcon
  match p', hp, h2 with
  | [], _, h2 =>
    rw [List.nil_append, List.cons_prefix_cons] at h2
    exact absurd h2.1 (by decide)
  | [a], _, h2 =>
    rw [List.singleton_append, List.cons_prefix_cons] at h2
    obtain ⟨_, h3⟩ := h2
    rw [List.cons_prefix_cons] at h3
    exact absurd h3.1 (by decide)
  | a :: b :: p'', hp, h2 =>
    rw [List.cons_append, List.cons_append, List.cons_prefix_cons] at h2
    obtain ⟨ha, h3⟩ := h2
    rw [List.cons_prefix_cons] at h3
    obtain ⟨hb, _⟩ := h3
    have hin : hasInfix fence (c :: a :: b :: p'') = true := by
      rw [hasInfix, Bool.or_eq_true]
      left
      rw [List.isPrefixOf_iff_prefix, fence_eq, List.cons_prefix_cons,
        List.cons_prefix_cons, List.cons_prefix_cons]
      exact ⟨hc, ha, hb, List.nil_prefix⟩
    rw [hp] at hin
    exact absurd hin (by decide)

lemma splitFirst_marker_aux :
    ∀ (p : List Char), hasInfix fence p = false →
      splitFirst fence (p ++ '\n' :: fence) = some (p ++ ['\n'], []) := by
  intro p
  induction p with
  | nil => intro _; decide
  | cons c p' ih =>
    intro hp
    have hnp : hasInfix fence p' = false := by
      rw [hasInfix, Bool.or_eq_false_iff] at hp; exact hp.2
    have hblock := fence_prefix_blocked c p' fence hp
    rw [List.cons_append, splitFirst, if_neg (by simp [hblock]), ih hnp]
    rfl

lemma splitFirst_after_marker {d : List Char} (hd : hasInfix fence d = false) :
    splitFirst fence ('\n' :: (d ++ '\n' :: fence)) =
      some ('\n' :: (d ++ ['\n']), []) := by
  have hblock : fence.isPrefixOf ('\n' :: (d ++ '\n' :: fence)) = false := by
    rw [fence_eq, List.isPrefixOf]
    rw [show (btick == '\n') = false from by decide]
    rfl
  rw [splitFirst, if_neg (by simp [hblock]), splitFirst_marker_aux d hd]
  rfl

lemma fenceJson_not_in_aux :
    ∀ (p : List Char), hasInfix fence p = false →
      hasInfix fenceJson (p ++ '\n' :: fence) = false := by
  intro p
  induction p with
  | nil => intro _; decide
  | cons c p' ih =>
    intro hp
    have hnp : hasInfix fence p' = false := by
      rw [hasInfix, Bool.or_eq_false_iff] at hp; exact hp.2
    rw [List.cons_append, hasInfix, Bool.or_eq_false_iff]
    refine ⟨?_, ih hnp⟩
    by_contra hcon
    rw [Bool.not_eq_false] at hcon
    have hmono : fence.isPrefixOf (c :: (p' ++ '\n' :: fence)) = true := by
      rw [List.isPrefixOf_iff_prefix] at hcon ⊢
      refine List.IsPrefix.trans ?_ hcon
      rw [fenceJson_split]
      exact List.prefix_append _ _
    rw [fence_prefix_blocked c p' fence hp] at hmono
    exact absurd hmono (by decide)

lemma fenceJson_not_in_bare {d : List Char}
    (hd : hasInfix fence d = false) :
    hasInfix fenceJson (fence ++ '\n' :: (d ++ '\n' :: fence)) = false := by
  have c1 : (btick == '\n') = false := by decide
  have c2 : (('j' : Char) == '\n') = false := by decide
  rw [show fence ++ '\n' :: (d ++ '\n' :: fence) =
    btick :: btick :: btick :: '\n' :: (d ++ '\n' :: fence) from by
      rw [fence_eq]; rfl]
  rw [hasInfix, hasInfix, hasInfix, hasInfix]
  rw [show fenceJson.isPrefixOf
      (btick :: btick :: btick :: '\n' :: (d ++ '\n' :: fence)) = false from by
    rw [fenceJson_eq, List.isPrefixOf, List.isPrefixOf, List.isPrefixOf,
      List.isPrefixOf, c2]
    simp]
  rw [show fenceJson.isPrefixOf
      (btick :: btick :: '\n' :: (d ++ '\n' :: fence)) = false from by
    rw [fenceJson_eq, List.isPrefixOf, List.isPrefixOf, List.isPrefixOf, c1]
    simp]
  rw [show fenceJson.isPrefixOf
      (btick :: '\n' :: (d ++ '\n' :: fence)) = false from by
    rw [fenceJson_eq, List.isPrefixOf, List.isPrefixOf, c1]
    simp]
  rw [show fenceJson.isPrefixOf ('\n' :: (d ++ '\n' :: fence)) = false from by
    rw [fenceJson_eq, List.isPrefixOf, c1]
    simp]
  simp only [Bool.false_or]
  exact fenceJson_not_in_aux d hd

lemma dropWhile_eq_self_of_strip {d : List Char} (hd : pyStrip d = d) :
    d.dropWhile Char.isWhitespace = d ∧
    d.reverse.dropWhile Char.isWhitespace = d.reverse := by
  have hx : d.dropWhile Char.isWhitespace = d := by
    apply (List.dropWhile_suffix _).eq_of_length
    have h1 : ((d.dropWhile Char.isWhitespace).reverse.dropWhile
        Char.isWhitespace).length ≤
        (d.dropWhile Char.isWhitespace).length := by
      have := (List.dropWhile_suffix
        (l := (d.dropWhile Char.isWhitespace).reverse)
        Char.isWhitespace).length_le
      simpa using this
    have h2 : (d.dropWhile Char.isWhitespace).length ≤ d.length :=
      (List.dropWhile_suffix _).length_le
    have h3 := congrArg List.length hd
    rw [pyStrip] at h3
    simp only [List.length_reverse] at h3
    omega
  refine ⟨hx, ?_⟩
  have hd' := hd
  rw [pyStrip, hx] at hd'
  apply (List.dropWhile_suffix _).eq_of_length
  have := congrArg List.length hd'
  simpa using this

lemma pyStrip_sandwich {d : List Char} (hd : pyStrip d = d) :
    pyStrip ('\n' :: (d ++ ['\n'])) = d := by
  obtain ⟨h1, h2⟩ := dropWhile_eq_self_of_strip hd
  rw [pyStrip, List.dropWhile_cons_of_pos (by decide)]
  cases d with
  | nil => decide
  | cons c d' =>
    have hc : Char.isWhitespace c = false := by
      by_contra hcon
      rw [Bool.not_eq_false] at hcon
      rw [List.dropWhile_cons_of_pos hcon] at h1
      have hlen := congrArg List.length h1
      have hle := (List.dropWhile_suffix
        (l := d') Char.isWhitespace).length_le
      simp only [List.length_cons] at hlen
      omega
    rw [List.cons_append, List.dropWhile_cons_of_neg (by simp [hc])]
    rw [show (c :: (d' ++ ['\n'])).reverse = '\n' :: (c :: d').reverse from by
      simp]
    rw [List.dropWhile_cons_of_pos (by decide), h2, List.reverse_reverse]

/-- Claim C5: parse_json_result round-trips any payload its decoder accepts
(the abstract `loads` standing for `json.loads`): a directly parseable
payload is returned unchanged, the same payload is recovered from inside a
```json-tagged fenced block and from inside a bare fenced block, and plain
prose that the decoder rejects and that contains no fence marker fails with
the propagated decode error.  The payload-side hypotheses say that the
serialized payload contains no fence marker, carries no surrounding
whitespace, and that the fenced wrappings are not themselves decodable. -/
theorem parse_json_result_roundtrip (loads : String → Option Json)
    (d prose : String) (v : Json)
    (hround : loads d = some v)
    (hnf : hasInfix fence d.data = false)
    (hstrip : pyStrip d.data = d.data)
    (hw1 : loads ("```json\n" ++ d ++ "\n```") = none)
    (hw2 : loads ("```\n" ++ d ++ "\n```") = none)
    (hp1 : loads prose = none)
    (hp2 : hasInfix fence prose.data = false) :
    parse_json_result loads d = .ok v ∧
    parse_json_result loads ("```json\n" ++ d ++ "\n```") = .ok v ∧
    parse_json_result loads ("```\n" ++ d ++ "\n```") = .ok v ∧
    parse_json_result loads prose =
      .error "json.decoder.JSONDecodeError" := by
  have hmk : String.mk d.data = d := rfl
  refine ⟨?_, ?_, ?_, ?_⟩
  · simp only [parse_json_result, hround]
  · have hdata : ("```json\n" ++ d ++ "\n```").data =
        fenceJson ++ ('\n' :: (d.data ++ '\n' :: fence)) := by
      simp only [String.data_append]
      rw [show fenceJson ++ ('\n' :: (d.data ++ '\n' :: fence)) =
          (fenceJson ++ ['\n']) ++ d.data ++ ('\n' :: fence) from by simp]
      congr 1
    simp only [parse_json_result, hw1, hdata,
      splitFirst_append_self (show fenceJson ≠ [] from by decide),
      splitFirst_after_marker hnf, pyStrip_sandwich hstrip, hmk, hround]
  · have hdata : ("```\n" ++ d ++ "\n```").data =
        fence ++ ('\n' :: (d.data ++ '\n' :: fence)) := by
      simp only [String.data_append]
      rw [show fence ++ ('\n' :: (d.data ++ '\n' :: fence)) =
          (fence ++ ['\n']) ++ d.data ++ ('\n' :: fence) from by simp]
      congr 1
    have hnojson : splitFirst fenceJson
        (fence ++ ('\n' :: (d.data ++ '\n' :: fence))) = none :=
      splitFirst_none_of_no_infix (fenceJson_not_in_bare hnf)
    simp only [parse_json_result, hw2, hdata, hnojson,
      splitFirst_append_self (show fence ≠ [] from by decide),
      splitFirst_after_marker hnf, pyStrip_sandwich hstrip, hmk, hround]
  · have hnof3 : splitFirst fence prose.data = none :=
      splitFirst_none_of_no_infix hp2
    have hnof7 : splitFirst fenceJson prose.data = none := by
      apply splitFirst_none_of_no_infix
      by_contra hcon
      rw [Bool.not_eq_false] at hcon
      have := hasInfix_append_left (a := fence) (b := ['j', 's', 'o', 'n'])
        (by rw [← fenceJson_split]; exact hcon)
      rw [hp2] at this
      exact absurd this (by decide)
    simp only [parse_json_result, hp1, hnof7, hnof3]

/-- Decoder used by the C5 witness: accepts exactly the payload text `1`. -/
def witLoads : String → Option Json :=
  fun s => if s = "1" then some (Json.num 1) else none

/-- Claim C5, witness instance of the round-trip theorem at the payload
`1`, the prose `hello`, and a decoder accepting exactly `1`. -/
theorem parse_json_result_roundtrip_witness :
    parse_json_result witLoads "1" = .ok (Json.num 1) ∧
    parse_json_result witLoads ("```json\n" ++ "1" ++ "\n```") =
      .ok (Json.num 1) ∧
    parse_json_result witLoads ("```\n" ++ "1" ++ "\n```") =
      .ok (Json.num 1) ∧
    parse_json_result witLoads "hello" =
      .error "json.decoder.JSONDecodeError" :=
  parse_json_result_roundtrip witLoads "1" "hello" (Json.num 1) rfl
    (by decide) (by decide) rfl rfl rfl (by decide)
